import Mathlib

/-!
Shallow embedding of `src/main.py` (Discord voice event automation bot).

The embedding keeps the source's structure: `get_voice_events` filters the
guild's scheduled events to the eligible ones, `sync_voice_events` clears the
scheduler's job table and rebuilds it (one job per event, keyed by the string
"event_<id>", `replace_existing=True`), `end_conflicting_voice_events` and
`start_voice_event` produce the sequence of start/end actions the bot requests
from the platform, and `start_event_command` is the manual-start slash command.
Timestamps are integers (seconds); Python exceptions are modelled by explicit
fallibility (an `add_fails` oracle for the scheduler, `Option` for lookups).
-/

/-- `discord.EventStatus` (the values this bot inspects). -/
inductive EventStatus
  | scheduled
  | active
  | completed
  | cancelled
deriving DecidableEq

/-- `discord.EntityType` (the values this bot inspects). -/
inductive EntityType
  | voice
  | stage_instance
  | external
deriving DecidableEq

/-- A voice/stage channel as the bot reads it (`event.channel`). -/
structure EventChannel where
  id : Int
  name : String
deriving DecidableEq

/-- A `discord.ScheduledEvent` snapshot: the fields `main.py` reads. -/
structure ScheduledEvent where
  id : Int
  name : String
  status : EventStatus
  entity_type : EntityType
  start_time : Int
  channel : Option EventChannel
deriving DecidableEq

/-- A guild, as the bot reads it: its current list of scheduled events. -/
structure Guild where
  scheduled_events : List ScheduledEvent
deriving DecidableEq

/-- `guild.get_scheduled_event(event_id)`: lookup by id. -/
def Guild.get_scheduled_event (g : Guild) (event_id : Int) : Option ScheduledEvent :=
  g.scheduled_events.find? (fun e => e.id == event_id)

/-- An APScheduler job as `sync_voice_events` creates one: string identity key
`f"event_{event.id}"`, the `DateTrigger` run date, and the event id payload. -/
structure Job where
  id : String
  run_date : Int
  event_id : Int
deriving DecidableEq

/-- The job identity key `f"event_{event.id}"`. -/
def job_key (event_id : Int) : String := "event_" ++ Int.repr event_id

/-- `scheduler.remove_all_jobs()`. -/
def remove_all_jobs (_jobs : List Job) : List Job := []

/-- `scheduler.add_job(..., id=key, replace_existing=True)`: the job with the
same identity key, if any, is replaced by the new one. -/
def add_job_replace (jobs : List Job) (j : Job) : List Job :=
  jobs.filter (fun j0 => j0.id ≠ j.id) ++ [j]

/-- The eligibility test of `get_voice_events` (main.py lines 98-109): keep an
event iff its status is `scheduled` and its entity type is voice or stage. -/
def is_voice_event (e : ScheduledEvent) : Bool :=
  e.status == EventStatus.scheduled &&
    (e.entity_type == EntityType.voice || e.entity_type == EntityType.stage_instance)

/-- `get_voice_events` (main.py lines 89-111): `[]` when the guild is not
found, else the eligible events. -/
def get_voice_events (guild : Option Guild) : List ScheduledEvent :=
  match guild with
  | none => []
  | some g => g.scheduled_events.filter is_voice_event

/-- The fire time computed by `sync_voice_events` (main.py lines 156-158):
the event's start time, clamped to `now + 60` when it is not in the future. -/
def event_fire_time (now : Int) (e : ScheduledEvent) : Int :=
  if e.start_time ≤ now then now + 60 else e.start_time

/-- The job `sync_voice_events` creates for an event. -/
def event_job (now : Int) (e : ScheduledEvent) : Job :=
  { id := job_key e.id, run_date := event_fire_time now e, event_id := e.id }

/-- One iteration of the `for event in voice_events` loop of
`sync_voice_events` (main.py lines 153-174), on the (job table, count)
accumulator. `add_fails e = true` models `scheduler.add_job` raising for that
event: the exception is caught, the job is not added and the event is not
counted; otherwise the job is upserted and the success count incremented. -/
def sync_step (now : Int) (add_fails : ScheduledEvent → Bool)
    (acc : List Job × Nat) (e : ScheduledEvent) : List Job × Nat :=
  if add_fails e then acc
  else (add_job_replace acc.1 (event_job now e), acc.2 + 1)

/-- `sync_voice_events` (main.py lines 145-177): clear all jobs, fetch the
eligible events, schedule each (catching per-event failures), and return the
new job table with the count of successfully scheduled events. -/
def sync_voice_events (jobs0 : List Job) (guild : Option Guild) (now : Int)
    (add_fails : ScheduledEvent → Bool) : List Job × Nat :=
  (get_voice_events guild).foldl (sync_step now add_fails) (remove_all_jobs jobs0, 0)

/-- A platform action the bot requests: `event.end()` or `event.start()`. -/
inductive BotAction
  | end_event (e : ScheduledEvent)
  | start_event (e : ScheduledEvent)
deriving DecidableEq

/-- The events `end_conflicting_voice_events` iterates `event.end()` over
(main.py lines 120-136): active voice/stage events in the given channel. -/
def conflicting_events (g : Guild) (new_event_channel_id : Int) : List ScheduledEvent :=
  g.scheduled_events.filter (fun e =>
    e.status == EventStatus.active &&
      (e.entity_type == EntityType.voice || e.entity_type == EntityType.stage_instance) &&
      (match e.channel with
       | some c => c.id == new_event_channel_id
       | none => false))

/-- `end_conflicting_voice_events` (main.py lines 113-143), as the sequence of
`event.end()` calls it requests. A failing `end()` is caught and logged, so
every conflicting event still gets its call; a missing guild requests none. -/
def end_conflicting_voice_events (guild : Option Guild) (new_event_channel_id : Int) :
    List BotAction :=
  match guild with
  | none => []
  | some g => (conflicting_events g new_event_channel_id).map BotAction.end_event

/-- `start_voice_event` (main.py lines 188-226), as the sequence of platform
calls it requests. Missing guild, missing event, or an already-active event
each return with no action requested; otherwise conflicts in the event's
channel (if any) are ended and then `event.start()` is requested. All
exceptions are caught inside the function (lines 219-226), so it never raises
to its caller. -/
def start_voice_event (guild : Option Guild) (event_id : Int) : List BotAction :=
  match guild with
  | none => []
  | some g =>
    match g.get_scheduled_event event_id with
    | none => []
    | some e =>
      if e.status == EventStatus.active then []
      else
        (match e.channel with
         | some c => end_conflicting_voice_events guild c.id
         | none => []) ++ [BotAction.start_event e]

/-- One decimal digit of a character, as Python's `int()` reads it. -/
def char_digit (c : Char) : Option Nat :=
  if c.isDigit then some (c.toNat - '0'.toNat) else none

/-- Decimal digits to a number: `none` unless the characters are one or more
digits. -/
def parse_nat_chars (cs : List Char) : Option Nat :=
  if cs.isEmpty then none
  else
    cs.foldl
      (fun acc c =>
        match acc, char_digit c with
        | some n, some d => some (n * 10 + d)
        | _, _ => none)
      (some 0)

/-- Model of Python's `int(s)` on a string: an optional sign followed by one
or more decimal digits; anything else raises `ValueError` (here: `none`). -/
def python_int_of_string (s : String) : Option Int :=
  match s.data with
  | '-' :: cs => (parse_nat_chars cs).map (fun n => -(n : Int))
  | '+' :: cs => (parse_nat_chars cs).map (fun n => (n : Int))
  | cs => (parse_nat_chars cs).map (fun n => (n : Int))

/-- The user-facing reply of the `/start_event` command. -/
inductive CommandReply
  | started (event_name : String)
  | invalid_id
  | command_error
deriving DecidableEq

/-- `start_event_command` (main.py lines 312-332): parse the id (`ValueError`
answers "Invalid event ID format"), run `start_voice_event` (which swallows
its own failures), then look the event up again for its name and answer the
success message — with the fallback name `"Event <id>"` when the event is not
found. Returns the platform actions requested and the reply sent. -/
def start_event_command (guild : Option Guild) (event_id : String) :
    List BotAction × CommandReply :=
  match python_int_of_string event_id with
  | none => ([], CommandReply.invalid_id)
  | some event_id_int =>
    let actions := start_voice_event guild event_id_int
    let event_name :=
      match guild with
      | some g =>
        match g.get_scheduled_event event_id_int with
        | some e => e.name
        | none => "Event " ++ event_id
      | none => "Event " ++ event_id
    (actions, CommandReply.started event_name)

/-!
Injectivity of the job identity key `"event_" ++ Int.repr id`, via a
characterization of `Nat.repr` through `Nat.digits`.
-/

theorem toDigitsCore_eq_digits : ∀ (fuel n : Nat) (ds : List Char), n < 10 ^ (fuel + 1) →
    Nat.toDigitsCore 10 (fuel + 1) n ds =
      (if n = 0 then ['0'] else ((Nat.digits 10 n).map Nat.digitChar).reverse) ++ ds
  | fuel, n, ds, h => by
    rw [Nat.toDigitsCore]
    by_cases hd : n / 10 = 0
    · simp only [hd, if_pos rfl]
      by_cases h0 : n = 0
      · subst h0
        simp [Nat.digitChar]
      · have hdig : Nat.digits 10 n = [n % 10] := by
          rw [Nat.digits_def' (by norm_num : (1:Nat) < 10) (Nat.pos_of_ne_zero h0), hd]
          simp
        simp [h0, hdig]
    · have h0 : n ≠ 0 := by
        intro h0; subst h0; simp at hd
      have hge : 10 ≤ n := by
        rcases Nat.lt_or_ge n 10 with hlt | hge
        · exact absurd (Nat.div_eq_of_lt hlt) hd
        · exact hge
      obtain ⟨f, rfl⟩ : ∃ f, fuel = f + 1 := by
        cases fuel with
        | zero => simp at h; omega
        | succ f => exact ⟨f, rfl⟩
      have hfuel : n / 10 < 10 ^ (f + 1) := by
        have h' : n < 10 * 10 ^ (f + 1) := by
          have := h; rw [pow_succ, mul_comm] at this; exact this
        omega
      simp only [hd, if_neg hd]
      rw [toDigitsCore_eq_digits (f) (n / 10) _ hfuel]
      rw [Nat.digits_def' (by norm_num : (1:Nat) < 10) (Nat.pos_of_ne_zero h0)]
      simp [h0, hd, List.reverse_cons, List.append_assoc]

theorem string_data_append (s t : String) : (s ++ t).data = s.data ++ t.data := by
  cases s; cases t; rfl

theorem Nat_repr_data (n : Nat) :
    (Nat.repr n).data = if n = 0 then ['0'] else ((Nat.digits 10 n).map Nat.digitChar).reverse := by
  have h : n < 10 ^ (n + 1) :=
    lt_of_lt_of_le (Nat.lt_pow_self (by norm_num) n)
      (Nat.pow_le_pow_right (by norm_num) (Nat.le_succ n))
  show (Nat.toDigits 10 n).asString.data = _
  rw [Nat.toDigits, toDigitsCore_eq_digits n n [] h]
  have haux : ∀ l : List Char, (List.asString l).data = l := fun l => rfl
  rw [haux, List.append_nil]

theorem digitChar_inj : ∀ a, a < 10 → ∀ b, b < 10 → Nat.digitChar a = Nat.digitChar b → a = b := by
  decide

theorem digitChar_ne_dash : ∀ d, d < 10 → Nat.digitChar d ≠ '-' := by decide

theorem map_digitChar_inj : ∀ (l1 l2 : List Nat), (∀ x ∈ l1, x < 10) → (∀ x ∈ l2, x < 10) →
    l1.map Nat.digitChar = l2.map Nat.digitChar → l1 = l2
  | [], [], _, _, _ => rfl
  | [], _ :: _, _, _, h => by simp at h
  | _ :: _, [], _, _, h => by simp at h
  | a :: l1, b :: l2, h1, h2, h => by
    simp only [List.map_cons, List.cons.injEq] at h
    have hab := digitChar_inj a (h1 a (by simp)) b (h2 b (by simp)) h.1
    have htl := map_digitChar_inj l1 l2 (fun x hx => h1 x (by simp [hx]))
      (fun x hx => h2 x (by simp [hx])) h.2
    simp [hab, htl]

theorem Nat_repr_data_inj {m n : Nat} (h : (Nat.repr m).data = (Nat.repr n).data) : m = n := by
  rw [Nat_repr_data, Nat_repr_data] at h
  by_cases hm : m = 0 <;> by_cases hn : n = 0
  · omega
  · exfalso
    simp only [hm, if_pos rfl, if_neg hn] at h
    rcases hdig : Nat.digits 10 n with _ | ⟨d, rest⟩
    · exact hn ((Nat.digits_eq_nil_iff_eq_zero).1 hdig)
    · rw [hdig] at h
      simp only [List.map_cons, List.reverse_cons] at h
      have hlen := congrArg List.length h
      simp at hlen
      subst hlen
      simp at h
      have hd10 : d < 10 := Nat.digits_lt_base (b := 10) (m := n) (by norm_num) (by simp [hdig])
      have : d = 0 := digitChar_inj d hd10 0 (by norm_num) (h.symm.trans (by decide))
      subst this
      have := Nat.ofDigits_digits 10 n
      rw [hdig] at this
      simp [Nat.ofDigits] at this
      exact hn this.symm
  · exfalso
    simp only [hn, if_pos rfl, if_neg hm] at h
    rcases hdig : Nat.digits 10 m with _ | ⟨d, rest⟩
    · exact hm ((Nat.digits_eq_nil_iff_eq_zero).1 hdig)
    · rw [hdig] at h
      simp only [List.map_cons, List.reverse_cons] at h
      have hlen := congrArg List.length h
      simp at hlen
      subst hlen
      simp at h
      have hd10 : d < 10 := Nat.digits_lt_base (b := 10) (m := m) (by norm_num) (by simp [hdig])
      have : d = 0 := digitChar_inj d hd10 0 (by norm_num) (h.trans (by decide))
      subst this
      have := Nat.ofDigits_digits 10 m
      rw [hdig] at this
      simp [Nat.ofDigits] at this
      exact hm this.symm
  · simp only [if_neg hm, if_neg hn, List.reverse_inj] at h
    have hdig := map_digitChar_inj (Nat.digits 10 m) (Nat.digits 10 n)
      (fun x hx => Nat.digits_lt_base (by norm_num) hx)
      (fun x hx => Nat.digits_lt_base (by norm_num) hx) h
    have hm' := Nat.ofDigits_digits 10 m
    have hn' := Nat.ofDigits_digits 10 n
    rw [hdig] at hm'
    rw [hn'] at hm'
    exact hm'.symm

theorem repr_char_is_digitChar {n : Nat} {c : Char} (hc : c ∈ (Nat.repr n).data) :
    ∃ d, d < 10 ∧ c = Nat.digitChar d := by
  rw [Nat_repr_data] at hc
  by_cases h0 : n = 0
  · simp [h0] at hc
    exact ⟨0, by norm_num, by simp [hc, Nat.digitChar]⟩
  · simp only [if_neg h0, List.mem_reverse, List.mem_map] at hc
    obtain ⟨d, hd, rfl⟩ := hc
    exact ⟨d, Nat.digits_lt_base (by norm_num) hd, rfl⟩

theorem Int_repr_data_inj : ∀ {i j : Int}, (Int.repr i).data = (Int.repr j).data → i = j := by
  intro i j h
  cases i with
  | ofNat m =>
    cases j with
    | ofNat n =>
      simp only [Int.repr] at h
      exact congrArg Int.ofNat (Nat_repr_data_inj h)
    | negSucc n =>
      exfalso
      simp only [Int.repr] at h
      rw [string_data_append] at h
      have hdash : '-' ∈ (Nat.repr m).data := by
        rw [h]; left
      obtain ⟨d, hd10, hdc⟩ := repr_char_is_digitChar hdash
      exact digitChar_ne_dash d hd10 hdc.symm
  | negSucc m =>
    cases j with
    | ofNat n =>
      exfalso
      simp only [Int.repr] at h
      rw [string_data_append] at h
      have hdash : '-' ∈ (Nat.repr n).data := by
        rw [← h]; left
      obtain ⟨d, hd10, hdc⟩ := repr_char_is_digitChar hdash
      exact digitChar_ne_dash d hd10 hdc.symm
    | negSucc n =>
      simp only [Int.repr] at h
      rw [string_data_append, string_data_append] at h
      simp only [List.cons_append, List.nil_append] at h
      have := List.tail_eq_of_cons_eq h
      have hmn := Nat_repr_data_inj this
      simp only [Nat.succ.injEq] at hmn
      rw [hmn]

theorem int_repr_injective {i j : Int} (h : Int.repr i = Int.repr j) : i = j :=
  Int_repr_data_inj (congrArg String.data h)

theorem job_key_injective {a b : Int} (h : job_key a = job_key b) : a = b := by
  have hd := congrArg String.data h
  rw [job_key, job_key, string_data_append, string_data_append] at hd
  exact Int_repr_data_inj (List.append_cancel_left hd)

/-!
Lemmas about the job table and the reconciliation fold of `sync_voice_events`.
-/

theorem mem_add_job_replace {jobs : List Job} {j j0 : Job} :
    j0 ∈ add_job_replace jobs j ↔ (j0 ∈ jobs ∧ j0.id ≠ j.id) ∨ j0 = j := by
  simp [add_job_replace, List.mem_filter]

theorem add_job_replace_keys_nodup {jobs : List Job} (j : Job)
    (h : (jobs.map Job.id).Nodup) : ((add_job_replace jobs j).map Job.id).Nodup := by
  rw [add_job_replace, List.map_append]
  refine List.Nodup.append ?_ (by simp) ?_
  · exact h.sublist (List.Sublist.map Job.id (List.filter_sublist jobs))
  · intro a ha hb
    simp only [List.map_cons, List.map_nil, List.mem_singleton] at hb
    subst hb
    simp only [List.mem_map, List.mem_filter, decide_not, Bool.not_eq_true',
      decide_eq_false_iff_not] at ha
    obtain ⟨x, ⟨_, hne⟩, hxa⟩ := ha
    exact hne hxa

theorem sync_step_fail {now : Int} {af : ScheduledEvent → Bool} {acc : List Job × Nat}
    {e : ScheduledEvent} (h : af e = true) : sync_step now af acc e = acc := by
  simp [sync_step, h]

theorem sync_step_ok {now : Int} {af : ScheduledEvent → Bool} {acc : List Job × Nat}
    {e : ScheduledEvent} (h : af e = false) :
    sync_step now af acc e = (add_job_replace acc.1 (event_job now e), acc.2 + 1) := by
  simp [sync_step, h]

theorem map_id_filter_ne (jobs : List Job) (k : String) :
    (jobs.filter (fun j0 => j0.id ≠ k)).map Job.id
      = (jobs.map Job.id).filter (fun s => s ≠ k) := by
  induction jobs with
  | nil => rfl
  | cons j js ih => by_cases h : j.id = k <;> simp [h] <;> simpa using ih

theorem sync_fold_keys_nodup (now : Int) (af : ScheduledEvent → Bool) :
    ∀ (evs : List ScheduledEvent) (acc : List Job × Nat),
      (acc.1.map Job.id).Nodup → ((evs.foldl (sync_step now af) acc).1.map Job.id).Nodup
  | [], _, h => h
  | e :: evs, acc, h => by
    rw [List.foldl_cons]
    apply sync_fold_keys_nodup now af evs
    rcases Bool.eq_false_or_eq_true (af e) with haf | haf
    · rw [sync_step_fail haf]
      exact h
    · rw [sync_step_ok haf]
      exact add_job_replace_keys_nodup (event_job now e) h

theorem sync_fold_mem_of_key_ne (now : Int) (af : ScheduledEvent → Bool) :
    ∀ (evs : List ScheduledEvent) (acc : List Job × Nat) (j : Job), j ∈ acc.1 →
      (∀ e ∈ evs, job_key e.id ≠ j.id) → j ∈ (evs.foldl (sync_step now af) acc).1
  | [], _, _, hj, _ => hj
  | e :: evs, acc, j, hj, hk => by
    rw [List.foldl_cons]
    apply sync_fold_mem_of_key_ne now af evs _ j _ (fun e2 he2 => hk e2 (by simp [he2]))
    rcases Bool.eq_false_or_eq_true (af e) with haf | haf
    · rw [sync_step_fail haf]
      exact hj
    · rw [sync_step_ok haf]
      refine mem_add_job_replace.2 (Or.inl ⟨hj, fun hne => ?_⟩)
      exact hk e (by simp) (by simpa [event_job] using hne.symm)

theorem sync_fold_mem (now : Int) (af : ScheduledEvent → Bool) :
    ∀ (evs : List ScheduledEvent) (acc : List Job × Nat) (e : ScheduledEvent),
      e ∈ evs → af e = false → (evs.map ScheduledEvent.id).Nodup →
      event_job now e ∈ (evs.foldl (sync_step now af) acc).1
  | [], _, _, hmem, _, _ => absurd hmem (List.not_mem_nil _)
  | e0 :: evs, acc, e, hmem, haf, hnd => by
    rw [List.foldl_cons]
    rcases List.mem_cons.1 hmem with rfl | htail
    · apply sync_fold_mem_of_key_ne now af evs _ _
      · rw [sync_step_ok haf]
        exact mem_add_job_replace.2 (Or.inr rfl)
      · intro e2 he2 hkey
        have hid : e2.id = e.id := job_key_injective (by simpa [event_job] using hkey)
        have : e.id ∈ evs.map ScheduledEvent.id := List.mem_map.2 ⟨e2, he2, hid⟩
        exact (List.nodup_cons.1 hnd).1 this
    · exact sync_fold_mem now af evs _ e htail haf (List.nodup_cons.1 hnd).2

theorem sync_fold_mem_src (now : Int) (af : ScheduledEvent → Bool) :
    ∀ (evs : List ScheduledEvent) (acc : List Job × Nat) (j : Job),
      j ∈ (evs.foldl (sync_step now af) acc).1 →
      j ∈ acc.1 ∨ ∃ e, e ∈ evs ∧ af e = false ∧ j = event_job now e
  | [], _, _, hj => Or.inl hj
  | e0 :: evs, acc, j, hj => by
    rw [List.foldl_cons] at hj
    rcases sync_fold_mem_src now af evs _ j hj with hacc | ⟨e, hmem, haf, rfl⟩
    · rcases Bool.eq_false_or_eq_true (af e0) with haf0 | haf0
      · rw [sync_step_fail haf0] at hacc
        exact Or.inl hacc
      · rw [sync_step_ok haf0] at hacc
        rcases mem_add_job_replace.1 hacc with ⟨hin, _⟩ | rfl
        · exact Or.inl hin
        · exact Or.inr ⟨e0, by simp, haf0, rfl⟩
    · exact Or.inr ⟨e, by simp [hmem], haf, rfl⟩

theorem sync_fold_count (now : Int) (af : ScheduledEvent → Bool) :
    ∀ (evs : List ScheduledEvent) (acc : List Job × Nat),
      (evs.foldl (sync_step now af) acc).2
        = acc.2 + (evs.filter (fun e => !(af e))).length
  | [], _ => by simp
  | e :: evs, acc => by
    rw [List.foldl_cons, List.filter_cons]
    rcases Bool.eq_false_or_eq_true (af e) with haf | haf
    · rw [sync_step_fail haf, sync_fold_count now af evs acc]
      simp [haf]
    · rw [sync_step_ok haf, sync_fold_count now af evs _]
      simp [haf]
      omega

theorem sync_fold_keys_eq (now now2 : Int) (af : ScheduledEvent → Bool) :
    ∀ (evs : List ScheduledEvent) (acc acc2 : List Job × Nat),
      acc.1.map Job.id = acc2.1.map Job.id →
      (evs.foldl (sync_step now af) acc).1.map Job.id
        = (evs.foldl (sync_step now2 af) acc2).1.map Job.id
  | [], _, _, h => h
  | e :: evs, acc, acc2, h => by
    rw [List.foldl_cons, List.foldl_cons]
    apply sync_fold_keys_eq now now2 af evs
    rcases Bool.eq_false_or_eq_true (af e) with haf | haf
    · rw [sync_step_fail haf, sync_step_fail haf]
      exact h
    · rw [sync_step_ok haf, sync_step_ok haf]
      show (add_job_replace acc.1 (event_job now e)).map Job.id
        = (add_job_replace acc2.1 (event_job now2 e)).map Job.id
      rw [add_job_replace, add_job_replace, List.map_append, List.map_append]
      rw [show (event_job now e).id = job_key e.id from rfl,
        show (event_job now2 e).id = job_key e.id from rfl]
      rw [map_id_filter_ne, map_id_filter_ne, h]
      rfl

theorem sync_fold_key_mem (now : Int) (af : ScheduledEvent → Bool) :
    ∀ (evs : List ScheduledEvent) (acc : List Job × Nat) (k : String),
      k ∈ acc.1.map Job.id → k ∈ (evs.foldl (sync_step now af) acc).1.map Job.id
  | [], _, _, hk => hk
  | e :: evs, acc, k, hk => by
    rw [List.foldl_cons]
    apply sync_fold_key_mem now af evs
    rcases Bool.eq_false_or_eq_true (af e) with haf | haf
    · rw [sync_step_fail haf]
      exact hk
    · rw [sync_step_ok haf]
      show k ∈ (add_job_replace acc.1 (event_job now e)).map Job.id
      rw [add_job_replace, List.map_append, map_id_filter_ne]
      by_cases hkk : k = job_key e.id
      · exact List.mem_append.2 (Or.inr (by simp [hkk, event_job]))
      · refine List.mem_append.2 (Or.inl ?_)
        exact List.mem_filter.2 ⟨hk, by simpa [event_job] using hkk⟩

theorem sync_fold_event_key_mem (now : Int) (af : ScheduledEvent → Bool) :
    ∀ (evs : List ScheduledEvent) (acc : List Job × Nat) (e : ScheduledEvent),
      e ∈ evs → af e = false →
      job_key e.id ∈ (evs.foldl (sync_step now af) acc).1.map Job.id
  | [], _, _, hmem, _ => absurd hmem (List.not_mem_nil _)
  | e0 :: evs, acc, e, hmem, haf => by
    rw [List.foldl_cons]
    rcases List.mem_cons.1 hmem with rfl | htail
    · apply sync_fold_key_mem now af evs
      rw [sync_step_ok haf]
      rw [add_job_replace, List.map_append]
      exact List.mem_append.2 (Or.inr (by simp [event_job]))
    · exact sync_fold_event_key_mem now af evs _ e htail haf

/-!
The claims.
-/

/-- C9: if the guild cannot be found when sync() runs, the unconditional
clear still happens first (the result does not depend on the previous job
table), the sync returns 0, and the job table is left empty: a sync against a
missing guild erases all previously scheduled jobs. -/
theorem C9_sync_missing_guild_clears (jobs0 : List Job) (now : Int)
    (add_fails : ScheduledEvent → Bool) :
    sync_voice_events jobs0 none now add_fails = ([], 0) := rfl

/-- The identity of a job, apart from its (time-sensitive) run date. -/
def job_sig (j : Job) : String × Int := (j.id, j.event_id)

theorem map_sig_filter_ne (jobs : List Job) (k : String) :
    (jobs.filter (fun j0 => j0.id ≠ k)).map job_sig
      = (jobs.map job_sig).filter (fun p => p.1 ≠ k) := by
  induction jobs with
  | nil => rfl
  | cons j js ih => by_cases h : j.id = k <;> simp [h, job_sig] <;> simpa [job_sig] using ih

theorem sync_fold_sig_eq (now now2 : Int) (af : ScheduledEvent → Bool) :
    ∀ (evs : List ScheduledEvent) (acc acc2 : List Job × Nat),
      acc.1.map job_sig = acc2.1.map job_sig →
      (evs.foldl (sync_step now af) acc).1.map job_sig
        = (evs.foldl (sync_step now2 af) acc2).1.map job_sig
  | [], _, _, h => h
  | e :: evs, acc, acc2, h => by
    rw [List.foldl_cons, List.foldl_cons]
    apply sync_fold_sig_eq now now2 af evs
    rcases Bool.eq_false_or_eq_true (af e) with haf | haf
    · rw [sync_step_fail haf, sync_step_fail haf]
      exact h
    · rw [sync_step_ok haf, sync_step_ok haf]
      show (add_job_replace acc.1 (event_job now e)).map job_sig
        = (add_job_replace acc2.1 (event_job now2 e)).map job_sig
      rw [add_job_replace, add_job_replace, List.map_append, List.map_append]
      rw [show (event_job now e).id = job_key e.id from rfl,
        show (event_job now2 e).id = job_key e.id from rfl]
      rw [map_sig_filter_ne, map_sig_filter_ne, h]
      rfl

/-- C4: sync() is idempotent in isolation: with the remote event list
unchanged, a second sync (run at any later time `now2`) produces a job table
with exactly the same event ids and the same job keys as the first, whatever
job table the first sync started from — only the run dates are
time-sensitive. -/
theorem C4_sync_idempotent_event_ids (jobs0 : List Job) (guild : Option Guild)
    (now now2 : Int) :
    (sync_voice_events (sync_voice_events jobs0 guild now (fun _ => false)).1
          guild now2 (fun _ => false)).1.map Job.event_id
        = (sync_voice_events jobs0 guild now (fun _ => false)).1.map Job.event_id ∧
      (sync_voice_events (sync_voice_events jobs0 guild now (fun _ => false)).1
          guild now2 (fun _ => false)).1.map Job.id
        = (sync_voice_events jobs0 guild now (fun _ => false)).1.map Job.id := by
  have hsig : (sync_voice_events (sync_voice_events jobs0 guild now (fun _ => false)).1
        guild now2 (fun _ => false)).1.map job_sig
      = (sync_voice_events jobs0 guild now (fun _ => false)).1.map job_sig :=
    sync_fold_sig_eq now2 now (fun _ => false) (get_voice_events guild) _ _ rfl
  constructor
  · have h2 := congrArg (List.map Prod.snd) hsig
    simpa [List.map_map, Function.comp, job_sig] using h2
  · have h1 := congrArg (List.map Prod.fst) hsig
    simpa [List.map_map, Function.comp, job_sig] using h1

/-- An operation on the scheduler's job table: a full `sync_voice_events`, a
single `add_job(..., replace_existing=True)` upsert keyed by `event_<id>`, or
`remove_all_jobs`. -/
inductive JobTableOp
  | sync_op (guild : Option Guild) (now : Int) (add_fails : ScheduledEvent → Bool)
  | upsert_op (event_id : Int) (fire_time : Int)
  | clear_op

/-- Apply one job-table operation. -/
def apply_op (jobs : List Job) : JobTableOp → List Job
  | JobTableOp.sync_op guild now add_fails => (sync_voice_events jobs guild now add_fails).1
  | JobTableOp.upsert_op event_id fire_time =>
      add_job_replace jobs { id := job_key event_id, run_date := fire_time, event_id := event_id }
  | JobTableOp.clear_op => remove_all_jobs jobs

/-- Apply a sequence of job-table operations. -/
def apply_ops (jobs : List Job) (ops : List JobTableOp) : List Job :=
  ops.foldl apply_op jobs

theorem apply_op_keys_nodup (jobs : List Job) (op : JobTableOp)
    (h : (jobs.map Job.id).Nodup) : ((apply_op jobs op).map Job.id).Nodup := by
  cases op with
  | sync_op guild now add_fails =>
    exact sync_fold_keys_nodup now add_fails (get_voice_events guild)
      (remove_all_jobs jobs, 0) (by simp [remove_all_jobs])
  | upsert_op event_id fire_time => exact add_job_replace_keys_nodup _ h
  | clear_op => simp [apply_op, remove_all_jobs]

theorem apply_ops_keys_nodup : ∀ (ops : List JobTableOp) (jobs : List Job),
    (jobs.map Job.id).Nodup → ((apply_ops jobs ops).map Job.id).Nodup
  | [], _, h => h
  | op :: ops, jobs, h =>
    apply_ops_keys_nodup ops (apply_op jobs op) (apply_op_keys_nodup jobs op h)

theorem length_filter_key (jobs : List Job) (k : String) :
    (jobs.filter (fun j => j.id = k)).length = (jobs.map Job.id).count k := by
  induction jobs with
  | nil => rfl
  | cons j js ih => by_cases h : j.id = k <;> simp [List.count_cons, h, ih]

/-- C3: starting from the empty job table, after any sequence of sync and
upsert (and clear) operations, at most one job keyed to any given event
identifier `event_<id>` exists, even after repeated upserts for the same
id. -/
theorem C3_at_most_one_job_per_event_id (ops : List JobTableOp) (event_id : Int) :
    ((apply_ops [] ops).filter (fun j => j.id = job_key event_id)).length ≤ 1 := by
  rw [length_filter_key]
  exact List.nodup_iff_count_le_one.1 (apply_ops_keys_nodup ops [] (by simp)) _

/-- C6: a per-event scheduling failure during sync() (`add_fails e = true`,
modelling `scheduler.add_job` raising for that event) is contained to that
event: the sync runs to completion over every eligible event, the returned
count is exactly the number of events scheduled successfully (failed events
are not counted), and every eligible event whose add did not fail has its job
present in the resulting job table. -/
theorem C6_per_event_failure_contained (jobs0 : List Job) (guild : Option Guild)
    (now : Int) (add_fails : ScheduledEvent → Bool) :
    (sync_voice_events jobs0 guild now add_fails).2
        = ((get_voice_events guild).filter (fun e => !(add_fails e))).length ∧
      ∀ e ∈ get_voice_events guild, add_fails e = false →
        job_key e.id ∈ (sync_voice_events jobs0 guild now add_fails).1.map Job.id := by
  constructor
  · have h := sync_fold_count now add_fails (get_voice_events guild) (remove_all_jobs jobs0, 0)
    simpa using h
  · intro e hmem haf
    exact sync_fold_event_key_mem now add_fails _ _ e hmem haf

/-- C1: for every eligible event E of the guild (status Scheduled, entity
type Voice or StageInstance), after sync() the job table contains exactly one
job keyed to E, and its fire time is E's start time when that is strictly
after the `now` captured at the start of the sync, and otherwise is exactly
`now + 60` — in particular it lies in the half-open window (now, now + 60]. -/
theorem C1_sync_fire_times (g : Guild) (now : Int) (e : ScheduledEvent)
    (hmem : e ∈ g.scheduled_events) (helig : is_voice_event e = true)
    (hids : (g.scheduled_events.map ScheduledEvent.id).Nodup) :
    ((sync_voice_events [] (some g) now (fun _ => false)).1.filter
        (fun j => j.id = job_key e.id)).length = 1 ∧
      ∀ j ∈ (sync_voice_events [] (some g) now (fun _ => false)).1,
        j.id = job_key e.id →
          (now < e.start_time → j.run_date = e.start_time) ∧
          (e.start_time ≤ now →
            j.run_date = now + 60 ∧ now < j.run_date ∧ j.run_date ≤ now + 60) := by
  have hmem2 : e ∈ get_voice_events (some g) := by
    simp only [get_voice_events]
    exact List.mem_filter.2 ⟨hmem, helig⟩
  have hndev : ((get_voice_events (some g)).map ScheduledEvent.id).Nodup := by
    simp only [get_voice_events]
    exact hids.sublist (List.Sublist.map ScheduledEvent.id (List.filter_sublist _))
  have hjob : event_job now e ∈ (sync_voice_events [] (some g) now (fun _ => false)).1 :=
    sync_fold_mem now (fun _ => false) (get_voice_events (some g))
      (remove_all_jobs [], 0) e hmem2 rfl hndev
  have hkeys : ((sync_voice_events [] (some g) now (fun _ => false)).1.map Job.id).Nodup :=
    sync_fold_keys_nodup now (fun _ => false) (get_voice_events (some g))
      (remove_all_jobs [], 0) (by simp [remove_all_jobs])
  constructor
  · rw [length_filter_key]
    exact List.count_eq_one_of_mem hkeys
      (List.mem_map.2 ⟨event_job now e, hjob, rfl⟩)
  · intro j hj hid
    have hje : j = event_job now e :=
      List.inj_on_of_nodup_map hkeys hj hjob (by simpa [event_job] using hid)
    subst hje
    constructor
    · intro hfut
      simp [event_job, event_fire_time, not_le.2 hfut]
    · intro hpast
      refine ⟨by simp [event_job, event_fire_time, hpast], ?_, ?_⟩ <;>
        simp [event_job, event_fire_time, hpast]

/-- C1 witness data: a guild with one eligible future event, one eligible
past-due event and one non-eligible external event. -/
def sample_channel : EventChannel := { id := 100, name := "General" }

def sample_event_past : ScheduledEvent :=
  { id := 1, name := "Past", status := EventStatus.scheduled,
    entity_type := EntityType.voice, start_time := 3, channel := some sample_channel }

def sample_event_future : ScheduledEvent :=
  { id := 2, name := "Future", status := EventStatus.scheduled,
    entity_type := EntityType.stage_instance, start_time := 3600,
    channel := some sample_channel }

def sample_event_ext : ScheduledEvent :=
  { id := 3, name := "Ext", status := EventStatus.scheduled,
    entity_type := EntityType.external, start_time := 3600, channel := none }

def sample_guild : Guild :=
  { scheduled_events := [sample_event_past, sample_event_future, sample_event_ext] }

theorem C1_witness :
    ((sync_voice_events [] (some sample_guild) 10 (fun _ => false)).1.filter
        (fun j => j.id = job_key sample_event_past.id)).length = 1 ∧
      ∀ j ∈ (sync_voice_events [] (some sample_guild) 10 (fun _ => false)).1,
        j.id = job_key sample_event_past.id →
          ((10 : Int) < sample_event_past.start_time → j.run_date = sample_event_past.start_time) ∧
          (sample_event_past.start_time ≤ 10 →
            j.run_date = 10 + 60 ∧ (10 : Int) < j.run_date ∧ j.run_date ≤ 10 + 60) :=
  C1_sync_fire_times sample_guild 10 sample_event_past (by decide) (by decide) (by decide)

/-- C2: the eligibility filter returns exactly the guild's events with status
Scheduled and entity type Voice or StageInstance; every job sync() creates
comes from such an event, and (with distinct event ids) no job keyed to a
non-eligible event (any other status, or any other entity type such as
External) is ever created. -/
theorem C2_eligibility_filter (g : Guild) (now : Int) (add_fails : ScheduledEvent → Bool)
    (hids : (g.scheduled_events.map ScheduledEvent.id).Nodup) :
    (∀ e, e ∈ get_voice_events (some g) ↔
        e ∈ g.scheduled_events ∧ e.status = EventStatus.scheduled ∧
          (e.entity_type = EntityType.voice ∨ e.entity_type = EntityType.stage_instance)) ∧
      (∀ j ∈ (sync_voice_events [] (some g) now add_fails).1,
        ∃ e, e ∈ g.scheduled_events ∧ e.status = EventStatus.scheduled ∧
          (e.entity_type = EntityType.voice ∨ e.entity_type = EntityType.stage_instance) ∧
          j = event_job now e) ∧
      ∀ e ∈ g.scheduled_events, is_voice_event e = false →
        job_key e.id ∉ (sync_voice_events [] (some g) now add_fails).1.map Job.id := by
  have hmemiff : ∀ e, e ∈ get_voice_events (some g) ↔
      e ∈ g.scheduled_events ∧ e.status = EventStatus.scheduled ∧
        (e.entity_type = EntityType.voice ∨ e.entity_type = EntityType.stage_instance) := by
    intro e
    simp [get_voice_events, List.mem_filter, is_voice_event, and_assoc]
  have hsrc : ∀ j ∈ (sync_voice_events [] (some g) now add_fails).1,
      ∃ e, e ∈ get_voice_events (some g) ∧ j = event_job now e := by
    intro j hj
    rcases sync_fold_mem_src now add_fails (get_voice_events (some g))
        (remove_all_jobs [], 0) j hj with hinit | ⟨e, hmem, _, rfl⟩
    · simp [remove_all_jobs] at hinit
    · exact ⟨e, hmem, rfl⟩
  refine ⟨hmemiff, ?_, ?_⟩
  · intro j hj
    obtain ⟨e, hmem, rfl⟩ := hsrc j hj
    obtain ⟨hg, hs, ht⟩ := (hmemiff e).1 hmem
    exact ⟨e, hg, hs, ht, rfl⟩
  · intro e hmem hnot hkey
    obtain ⟨j, hj, hjid⟩ := List.mem_map.1 hkey
    obtain ⟨e2, hmem2, rfl⟩ := hsrc j hj
    have helig2 : is_voice_event e2 = true :=
      (List.mem_filter.1 (by simpa [get_voice_events] using hmem2)).2
    have hid : e2.id = e.id := job_key_injective (by simpa [event_job] using hjid)
    have he2g : e2 ∈ g.scheduled_events := ((hmemiff e2).1 hmem2).1
    have : e2 = e := List.inj_on_of_nodup_map hids he2g hmem hid
    rw [this] at helig2
    rw [helig2] at hnot
    exact absurd hnot (by simp)

theorem C2_witness :
    (∀ e, e ∈ get_voice_events (some sample_guild) ↔
        e ∈ sample_guild.scheduled_events ∧ e.status = EventStatus.scheduled ∧
          (e.entity_type = EntityType.voice ∨ e.entity_type = EntityType.stage_instance)) ∧
      (∀ j ∈ (sync_voice_events [] (some sample_guild) 10 (fun _ => false)).1,
        ∃ e, e ∈ sample_guild.scheduled_events ∧ e.status = EventStatus.scheduled ∧
          (e.entity_type = EntityType.voice ∨ e.entity_type = EntityType.stage_instance) ∧
          j = event_job 10 e) ∧
      ∀ e ∈ sample_guild.scheduled_events, is_voice_event e = false →
        job_key e.id ∉ (sync_voice_events [] (some sample_guild) 10 (fun _ => false)).1.map Job.id :=
  C2_eligibility_filter sample_guild 10 (fun _ => false) (by decide)

theorem start_voice_event_eq (g : Guild) (event_id : Int) (e : ScheduledEvent)
    (hfind : g.get_scheduled_event event_id = some e)
    (hactive : e.status ≠ EventStatus.active) :
    start_voice_event (some g) event_id =
      (match e.channel with
       | some c => end_conflicting_voice_events (some g) c.id
       | none => []) ++ [BotAction.start_event e] := by
  have hbeq : (e.status == EventStatus.active) = false := beq_eq_false_iff_ne.2 hactive
  simp [start_voice_event, hfind, hbeq]

/-- C5: when `start_voice_event` fires for an event B that has a channel C,
then every event A of the current remote list with status Active, entity type
Voice or StageInstance, and channel id equal to C's gets an `event.end()`
call, and every such end call comes strictly before the single, final
`event.start()` call for B. -/
theorem C5_conflicts_ended_before_start (g : Guild) (event_id : Int)
    (b : ScheduledEvent) (c : EventChannel) (a : ScheduledEvent) (ca : EventChannel)
    (hfind : g.get_scheduled_event event_id = some b)
    (hactive : b.status ≠ EventStatus.active)
    (hchan : b.channel = some c)
    (hamem : a ∈ g.scheduled_events)
    (hast : a.status = EventStatus.active)
    (haty : a.entity_type = EntityType.voice ∨ a.entity_type = EntityType.stage_instance)
    (hach : a.channel = some ca) (hacid : ca.id = c.id) :
    BotAction.end_event a ∈ (start_voice_event (some g) event_id).dropLast ∧
      (start_voice_event (some g) event_id).getLast? = some (BotAction.start_event b) := by
  rw [start_voice_event_eq g event_id b hfind hactive, hchan]
  have hconf : a ∈ conflicting_events g c.id := by
    refine List.mem_filter.2 ⟨hamem, ?_⟩
    rcases haty with hty | hty <;> simp [hast, hty, hach, hacid]
  constructor
  · rw [List.dropLast_concat]
    exact List.mem_map.2 ⟨a, hconf, rfl⟩
  · exact List.getLast?_concat _

def sample_event_active : ScheduledEvent :=
  { id := 7, name := "Occupying", status := EventStatus.active,
    entity_type := EntityType.voice, start_time := 0, channel := some sample_channel }

def sample_guild_conflict : Guild :=
  { scheduled_events := [sample_event_active, sample_event_past] }

theorem C5_witness :
    BotAction.end_event sample_event_active
        ∈ (start_voice_event (some sample_guild_conflict) 1).dropLast ∧
      (start_voice_event (some sample_guild_conflict) 1).getLast?
        = some (BotAction.start_event sample_event_past) :=
  C5_conflicts_ended_before_start sample_guild_conflict 1 sample_event_past
    sample_channel sample_event_active sample_channel (by decide) (by decide)
    (by decide) (by decide) (by decide) (Or.inl (by decide)) (by decide) (by decide)

/-- C7: `start_voice_event` (the onFire payload) is a no-op that requests no
platform action — in particular never `event.start()` — when the guild cannot
be found, when the event id is absent from the event source at fire time, or
when the re-fetched event is already Active; being a total function, it
returns normally (the source catches every exception internally). -/
theorem C7_onfire_noop (guild : Option Guild) (event_id : Int)
    (h : guild = none ∨ ∃ g, guild = some g ∧
        (g.get_scheduled_event event_id = none ∨
          ∃ e, g.get_scheduled_event event_id = some e ∧
            e.status = EventStatus.active)) :
    start_voice_event guild event_id = [] := by
  rcases h with rfl | ⟨g, rfl, hcase⟩
  · rfl
  · rcases hcase with hnone | ⟨e, hsome, hact⟩
    · simp [start_voice_event, hnone]
    · simp [start_voice_event, hsome, hact]

theorem C7_witness :
    start_voice_event (some sample_guild_conflict) 99 = [] :=
  C7_onfire_noop (some sample_guild_conflict) 99
    (Or.inr ⟨sample_guild_conflict, rfl, Or.inl (by decide)⟩)

/-- C10: the re-validation in `start_voice_event` short-circuits only on a
missing guild, a missing event, or status Active: for every re-fetched event
whose status is anything else — including Completed and Cancelled — it
proceeds to end the conflicts of the event's channel (when there is one) and
finally requests `event.start()` on it. -/
theorem C10_onfire_proceeds_on_non_active (g : Guild) (event_id : Int)
    (e : ScheduledEvent) (hfind : g.get_scheduled_event event_id = some e)
    (hstat : e.status ≠ EventStatus.active) :
    (start_voice_event (some g) event_id).getLast? = some (BotAction.start_event e) ∧
      ∀ c, e.channel = some c → ∀ a ∈ conflicting_events g c.id,
        BotAction.end_event a ∈ (start_voice_event (some g) event_id).dropLast := by
  rw [start_voice_event_eq g event_id e hfind hstat]
  constructor
  · exact List.getLast?_concat _
  · intro c hc a ha
    rw [hc, List.dropLast_concat]
    exact List.mem_map.2 ⟨a, ha, rfl⟩

def sample_event_cancelled : ScheduledEvent :=
  { id := 4, name := "Cancelled", status := EventStatus.cancelled,
    entity_type := EntityType.voice, start_time := 3600, channel := some sample_channel }

def sample_guild_cancelled : Guild :=
  { scheduled_events := [sample_event_active, sample_event_cancelled] }

theorem C10_witness :
    (start_voice_event (some sample_guild_cancelled) 4).getLast?
        = some (BotAction.start_event sample_event_cancelled) ∧
      ∀ c, sample_event_cancelled.channel = some c →
        ∀ a ∈ conflicting_events sample_guild_cancelled c.id,
          BotAction.end_event a
            ∈ (start_voice_event (some sample_guild_cancelled) 4).dropLast :=
  C10_onfire_proceeds_on_non_active sample_guild_cancelled 4 sample_event_cancelled
    (by decide) (by decide)

/-- Guild for the C8 counterexample: the event source has no event, so the
underlying start of event 1 fails (NotFound). -/
def c8_guild : Guild := { scheduled_events := [] }

/-- C8 counterexample: the manual `/start_event` command does not surface an
underlying start failure to the user. With an empty event source, starting
event "1" fails (the payload finds no event and requests no action), yet the
command replies with the success message `Started event: Event 1` — not with
a failure reply. `start_voice_event` catches all its exceptions internally
(main.py lines 219-226), so the command's error branch is unreachable for
start failures and it proceeds to the success message (lines 318-326). -/
theorem C8_counterexample :
    start_voice_event (some c8_guild) 1 = [] ∧
      start_event_command (some c8_guild) "1"
          = ([], CommandReply.started "Event 1") ∧
      (start_event_command (some c8_guild) "1").2 ≠ CommandReply.command_error := by
  refine ⟨rfl, ?_, ?_⟩ <;> decide

/-- C8 (amended): a non-integer event id input fails with the InvalidId reply
without attempting a start; but for any input that parses as an integer the
command always replies with the success message (using the re-fetched event
name, or the fallback "Event <id>"), whatever the underlying start did — start
failures are swallowed inside `start_voice_event` and are never surfaced to
the invoking user. -/
theorem C8_manual_start_replies (guild : Option Guild) (event_id : String) :
    (python_int_of_string event_id = none →
      start_event_command guild event_id = ([], CommandReply.invalid_id)) ∧
      ∀ i, python_int_of_string event_id = some i →
        (start_event_command guild event_id).1 = start_voice_event guild i ∧
          ∃ event_name, (start_event_command guild event_id).2
            = CommandReply.started event_name := by
  constructor
  · intro h
    simp [start_event_command, h]
  · intro i h
    constructor
    · simp [start_event_command, h]
    · refine ⟨match guild with
        | some g =>
          match g.get_scheduled_event i with
          | some e => e.name
          | none => "Event " ++ event_id
        | none => "Event " ++ event_id, ?_⟩
      simp [start_event_command, h]
